import Mathlib

/-
Verification of the go-revolver latency-rings routing table
(`routingtable/rings.go`) and the artifact-stream pairing protocol
(`p2p/pair.go`).

Shallow embedding conventions:
* `PeerID` is `String` (libp2p peer IDs are strings; only equality matters).
* `time.Duration` is `Int` (Go `int64` nanoseconds; no operation in the
  embedded code comes near the 64-bit range on the inputs considered, so
  wrap-around is not modelled).
* Go maps are modelled by lists: a `map[peer.ID]bool` peer set becomes a
  `List PeerID` holding the keys; nondeterministic map-iteration order is
  absorbed by the random-permutation parameters where the code permutes
  anyway, and is irrelevant to membership-level statements elsewhere.
* `rand.Perm n` outcomes are passed in explicitly as `List Nat` parameters,
  so statements quantify over every outcome of the internal permutations.
* Code that can panic (closing a closed channel, slice-bounds violations)
  returns `Option`, with `none` for the panic.
* External collaborators (the go-libp2p-peerstore metrics/EWMA store, the
  stream store, the network host, the latency probe) appear only through
  their call results, which are passed in as parameters exactly where the
  code consults them.
-/

/-- Peer identifier (`peer.ID`); opaque, compared by equality only. -/
abbrev PeerID := String

/-- `time.Duration`: `int64` nanoseconds. -/
abbrev Duration := Int

/-! ## Pairing protocol (`pair.go`) -/

/-- The ACK control byte (`const ack = 0x06`). -/
def ackByte : Nat := 0x06

/-- The NAK control byte (`const nak = 0x15`). -/
def nakByte : Nat := 0x15

/-- The error value returned by `client.pair`: the stream-open error from
`host.NewStream`, or the error from `util.ReadWithTimeout` (timeout or I/O
failure). -/
inductive PairError where
  | connectError
  | readError
deriving DecidableEq, Repr

/-- Observable outcome of one `client.pair(peerId)` call. -/
structure PairResult where
  /-- first return value of `pair` -/
  success : Bool
  /-- second return value of `pair` (`nil` = `none`) -/
  err : Option PairError
  /-- whether `stream.Close()` was called by `pair` -/
  streamClosed : Bool
  /-- whether `client.table.Remove(pid)` was called -/
  peerRemoved : Bool
  /-- whether `client.peerstore.ClearAddrs(pid)` was called -/
  addrsCleared : Bool
  /-- whether `go client.process(stream)` was spawned -/
  processSpawned : Bool
deriving DecidableEq, Repr

/-- `client.pair` (pair.go lines 334-387), initiator side of the handshake.
`openOk` is whether `host.NewStream` succeeded; `readResult` is the control
byte delivered by `util.ReadWithTimeout` (`none` = timeout or read error);
`storeAccepts` is the result of `client.streamstore.Add(pid, stream, true)`
(consulted only when the byte equals `ack`, mirroring `&&` short-circuit). -/
def pair (openOk : Bool) (readResult : Option Nat) (storeAccepts : Bool) : PairResult :=
  if openOk then
    match readResult with
    | none =>
        -- read failed: log, stream.Close(), return false, err
        ⟨false, some .readError, true, false, false, false⟩
    | some b =>
        if b == ackByte && storeAccepts then
          -- ready to exchange artifacts: go client.process(stream); success
          ⟨true, none, false, false, false, true⟩
        else
          -- cannot pair: stream.Close(); success = false; return success, nil
          ⟨false, none, true, false, false, false⟩
  else
    -- NewStream failed: ClearAddrs(pid), table.Remove(pid), return false, err
    ⟨false, some .connectError, false, true, true, false⟩

/-- Observable outcome of one `client.pairHandler(stream)` invocation. -/
structure HandlerResult where
  /-- whether `streamstore.Add(pid, stream, false)` returned true -/
  storeAdded : Bool
  /-- whether `streamstore.Remove(pid)` was called -/
  storeRemoved : Bool
  /-- byte handed to `util.WriteWithTimeout` on the reject path, if taken -/
  rejectByteSent : Option Nat
  /-- byte handed to `util.WriteWithTimeout` on the acknowledgement write, if reached -/
  ackByteSent : Option Nat
  /-- number of `stream.Close()` calls made by the handler -/
  closeCount : Nat
  /-- whether `go client.process(stream)` was spawned -/
  processSpawned : Bool
deriving DecidableEq, Repr

/-- `client.pairHandler` (pair.go lines 390-433), responder side.
`addAccepts` is the result of `streamstore.Add(pid, stream, false)`;
`ackWriteOk` is whether the ACK `WriteWithTimeout` succeeded.  On the reject
path the NAK write's own success only changes a log line, so it is not a
parameter; `reject` always closes the stream afterwards. -/
def pairHandler (addAccepts ackWriteOk : Bool) : HandlerResult :=
  if addAccepts then
    if ackWriteOk then
      -- ready to exchange artifacts: go client.process(stream); return
      ⟨true, false, none, some ackByte, 0, true⟩
    else
      -- ACK write failed: log, streamstore.Remove(pid), return (no Close)
      ⟨true, true, none, some ackByte, 0, false⟩
  else
    -- reject: write nak (best effort), stream.Close(), return
    ⟨false, false, some nakByte, none, 1, false⟩

/-! ## Shutdown (`rings.go` lines 306-308) -/

/-- Go `close(ch)` on a channel whose closed-state is `closed`: marks the
channel closed, but panics (`none`) if it is already closed.  `close` never
blocks.  `ringsRoutingTable.Shutdown` is exactly `close(r.shutdown)`. -/
def closeChan (closed : Bool) : Option Bool :=
  if closed then none else some true

/-- `ringsRoutingTable.Shutdown`: the shutdown channel's closed-state before
the call is `closed`; the result is its state after, or `none` on panic. -/
def tableShutdown (closed : Bool) : Option Bool :=
  closeChan closed

/-! ## Background refresh task (`rings.go` lines 126-136) -/

/-- Which arm of the `select` in the background goroutine fires:
`timer` = `<-time.After(r.conf.SamplePeriod)`, `stop` = `<-r.shutdown`. -/
inductive SelectOutcome where
  | timer
  | stop
deriving DecidableEq, Repr

/-- The goroutine spawned by `NewRingsRoutingTable`: it executes a single
`select`; on the timer arm it runs `r.refreshLatency(); r.populateRings()`
once and then falls off the end of the function, on the shutdown arm it
returns.  There is no loop.  Given the (infinite) schedule of select
outcomes, this is the number of times the refresh body executes. -/
def refreshTaskBodyCount (outcomes : Nat → SelectOutcome) : Nat :=
  match outcomes 0 with
  | .timer => 1
  | .stop => 0

/-! ## Rings and latency bands (`rings.go`) -/

/-- `ring.Add` (rings.go lines 60-62): append the peer to the ring's slice. -/
def ringAdd (r : List PeerID) (pid : PeerID) : List PeerID :=
  r ++ [pid]

/-- The latency-range construction in `NewRingsRoutingTable` (rings.go lines
103-110): `latRanges[0] = 0`, then `ringsCount - 1` further entries with
`k` starting at `conf.BaseLatency` and updated by
`k = time.Duration(float64(k) * conf.LatencyGrowthFactor)`.  The `float64`
growth factor is embedded as the exact rational `gnum / gden`, and the
`time.Duration(...)` conversion as `Int` division (truncation toward zero,
which on the nonnegative durations considered coincides with the Go
conversion); for the configurations in the spec's scenarios
(`growthFactor = 2`, millisecond-scale bases, far below 2^53) the `float64`
arithmetic is exact, so this embedding computes the very same values.
`mkLatRangesAux n k gnum gden` produces the `n` entries after the leading
zero. -/
def mkLatRangesAux : Nat → Int → Int → Int → List Int
  | 0, _, _, _ => []
  | n + 1, k, gnum, gden => k :: mkLatRangesAux n (k * gnum / gden) gnum gden

/-- The full `latRanges` slice built by `NewRingsRoutingTable`. -/
def mkLatRanges (ringsCount : Nat) (base : Int) (gnum gden : Int) : List Int :=
  0 :: mkLatRangesAux (ringsCount - 1) base gnum gden

/-- The ring-search loop of `populateRings` (rings.go lines 191-196): scan
`i` from `latRanges.length - 1` down to `0` and return the first `i` with
`latency > latRanges[i]`, or `none` when no index qualifies (in which case
the peer is added to no ring).  `ringIndexForAux lr lat (i+1)` checks index
`i` first. -/
def ringIndexForAux (lr : List Int) (lat : Int) : Nat → Option Nat
  | 0 => none
  | i + 1 => if lat > lr.getD i 0 then some i else ringIndexForAux lr lat i

/-- Index of the ring `populateRings` puts a peer with EWMA `lat` into. -/
def ringIndexFor (lr : List Int) (lat : Int) : Option Nat :=
  ringIndexForAux lr lat lr.length

/-- `ringsRoutingTable.populateRings` (rings.go lines 179-200): build
`ringsCount` fresh empty rings, then for each known peer look up
`r.metrics.LatencyEWMA(pid)` (the estimator snapshot `est`; the
go-libp2p-peerstore estimator returns the zero value for peers with no
recorded samples) and add the peer to the ring found by the downward scan,
or to no ring when the scan fails.  `peers` lists the keys of the `r.peers`
map; ring membership does not depend on the iteration order. -/
def populateRings (peers : List PeerID) (est : PeerID → Int) (lr : List Int)
    (ringsCount : Nat) : List (List PeerID) :=
  peers.foldl
    (fun rings pid =>
      match ringIndexFor lr (est pid) with
      | some i => rings.set i (ringAdd (rings.getD i []) pid)
      | none => rings)
    (List.replicate ringsCount [])

/-! ## Recommendation (`rings.go` lines 73-87, 237-300) -/

/-- `ring.Recommend` (rings.go lines 73-87): draw a permutation `perm` of
the ring's indices (`rand.Perm(len(r.peers))`), walk its first
`min count (perm.length)` entries, and keep the corresponding peers not in
`exclude`.  Excluded peers still consume their permutation slot. -/
def ringRecommend (ringPeers : List PeerID) (count : Nat) (exclude : List PeerID)
    (perm : List Nat) : List PeerID :=
  (((perm.take count).filterMap fun i => ringPeers.get? i).filter
    fun pid => !exclude.contains pid)

/-- The quota loop of `ringsRoutingTable.Recommend` (rings.go lines
248-262): `count` iterations, each incrementing slot `j` of
`nodesFromRing` and advancing `j` cyclically modulo the slot count
(`acc.length = conf.RingsCount`). -/
def nodesFromRingAux : Nat → Nat → List Nat → List Nat
  | 0, _, acc => acc
  | steps + 1, j, acc =>
      nodesFromRingAux steps (if j + 1 ≥ acc.length then 0 else j + 1)
        (acc.set j (acc.getD j 0 + 1))

/-- `nodesFromRing`: how many peers `Recommend` requests from each ring. -/
def nodesFromRing (count ringsCount : Nat) : List Nat :=
  nodesFromRingAux count 0 (List.replicate ringsCount 0)

/-- The per-ring collection loop of `Recommend` (rings.go lines 264-267):
`recommended = append(recommended, r.rings[i].Recommend(count, exclude)...)`
for each ring in order, with its quota and its own permutation outcome. -/
def recommendFromRings :
    List (List PeerID) → List Nat → List PeerID → List (List Nat) → List PeerID
  | r :: rs, q :: qs, exclude, pm :: pms =>
      ringRecommend r q exclude pm ++ recommendFromRings rs qs exclude pms
  | _, _, _, _ => []

/-- `ringsRoutingTable.sample` (rings.go lines 285-300): list the keys of
`r.peers` (the map-iteration order is absorbed by the permutation
parameter), draw a permutation of them, walk its first
`min count (perm.length)` entries and keep the peers not in `exclude`.
As in `ring.Recommend`, excluded peers consume their slot. -/
def tableSample (peers : List PeerID) (count : Nat) (exclude : List PeerID)
    (perm : List Nat) : List PeerID :=
  (((perm.take count).filterMap fun i => peers.get? i).filter
    fun pid => !exclude.contains pid)

/-- `ringsRoutingTable.Recommend` (rings.go lines 237-282): build the
exclusion set from `excludeList`, split `count` round-robin over the
`ringsCount` rings, collect each ring's sample, and when the result is
short of `count`, top it up with `sample` over the whole peer set, with the
already-recommended peers added to the exclusions.  `ringPerms` holds one
permutation outcome per ring and `samplePerm` the outcome used by the
fallback `sample`. -/
def tableRecommend (peers : List PeerID) (rings : List (List PeerID))
    (ringsCount count : Nat) (excludeList : List PeerID)
    (ringPerms : List (List Nat)) (samplePerm : List Nat) : List PeerID :=
  let quotas := nodesFromRing count ringsCount
  let recommended := recommendFromRings rings quotas excludeList ringPerms
  if recommended.length < count then
    recommended ++
      tableSample peers (count - recommended.length) (excludeList ++ recommended)
        samplePerm
  else
    recommended

/-! ## `ring.Remove` (rings.go lines 64-71), with Go slice semantics

```go
for i, peer := range r.peers {
    if peer == pid {
        r.peers = append(r.peers[:i], r.peers[i+1:]...)
    }
}
```

The `range` expression is evaluated once, fixing the iteration count at the
original length `n` and keeping a view of the original backing array, which
the in-place `append` mutates.  The state is therefore the backing array
`arr` (length constantly `n`) plus the current slice length `len`.  Each
iteration reads `arr[i]`; on a match it evaluates `r.peers[:i]` (always
valid: `i < n = cap`) and `r.peers[i+1:]`, which is `r.peers[i+1:len]` and
panics when `i + 1 > len`; otherwise `append` shifts `arr[i+1..len-1]` down
one slot in place and the slice length drops by one. -/

/-- The in-place effect of `append(r.peers[:i], r.peers[i+1:]...)` on the
backing array: positions `i .. len-2` receive the old `arr[i+1 .. len-1]`,
everything else (including the now-stale positions from `len-1` on) is
unchanged. -/
def ringRemoveShift (arr : List PeerID) (i len : Nat) : List PeerID :=
  arr.take i ++ (arr.drop (i + 1)).take (len - i - 1) ++ arr.drop (len - 1)

/-- The loop of `ring.Remove` over the index list `idxs` (which
`ring.Remove` instantiates with `0, 1, ..., n-1`), in state
`(backing array, current slice length)`; `none` is the slice-bounds panic. -/
def ringRemoveAux (pid : PeerID) :
    List Nat → List PeerID × Nat → Option (List PeerID × Nat)
  | [], st => some st
  | i :: rest, (arr, len) =>
      match arr.get? i with
      | none => ringRemoveAux pid rest (arr, len)
      | some peerI =>
          if peerI = pid then
            if len < i + 1 then none
            else ringRemoveAux pid rest (ringRemoveShift arr i len, len - 1)
          else ringRemoveAux pid rest (arr, len)

/-- `ring.Remove` (rings.go lines 64-71): run the loop and read off the
final slice (the first `len` entries of the backing array); `none` is a
runtime panic. -/
def ringRemove (pid : PeerID) (l : List PeerID) : Option (List PeerID) :=
  (ringRemoveAux pid (List.range l.length) (l, l.length)).map fun st =>
    st.1.take st.2

/-! ## Routing table state, `Add`, `Remove` (`rings.go` lines 202-235) -/

/-- The mutable state of a `ringsRoutingTable` relevant to `Add`/`Remove`:
the `peers` set (keys of the Go map), the rings, and the metrics store.
The metrics store's type `M` and operations are abstract: the estimator is
an external collaborator (go-libp2p-peerstore) whose internal EWMA math is
out of scope; only which calls the table makes on it is modelled. -/
structure TableState (M : Type) where
  peers : List PeerID
  rings : List (List PeerID)
  metrics : M
deriving DecidableEq, Repr

/-- `ringsRoutingTable.Add` (rings.go lines 202-225): no-op if the peer is
already known; otherwise probe it (`conf.LatencyProbFn`, result passed in
as `probe`); on probe error log and return without adding; on success
record the latency in the metrics store (`record`, i.e.
`r.metrics.RecordLatency`) and insert the peer into the set.  The rings are
not touched. -/
def tableAdd {M : Type} (record : M → PeerID → Duration → M)
    (probe : PeerID → Option Duration) (pid : PeerID)
    (st : TableState M) : TableState M :=
  if pid ∈ st.peers then st
  else
    match probe pid with
    | none => st
    | some latency => ⟨st.peers ++ [pid], st.rings, record st.metrics pid latency⟩

/-- The `for _, ring := range r.rings { ring.Remove(pid) }` loop of
`ringsRoutingTable.Remove`; a panic in any ring aborts the program
(`none`). -/
def removeFromRings (pid : PeerID) : List (List PeerID) → Option (List (List PeerID))
  | [] => some []
  | r :: rs =>
      match ringRemove pid r with
      | none => none
      | some r2 =>
          match removeFromRings pid rs with
          | none => none
          | some rs2 => some (r2 :: rs2)

/-- `ringsRoutingTable.Remove` (rings.go lines 227-235): delete the peer
from the `peers` map, run `ring.Remove` on every ring, and — per the
`TODO` in the source — leave the metrics store untouched. -/
def tableRemove {M : Type} (pid : PeerID) (st : TableState M) :
    Option (TableState M) :=
  match removeFromRings pid st.rings with
  | none => none
  | some rings2 => some ⟨st.peers.filter fun q => q != pid, rings2, st.metrics⟩

/-! ## Helper lemmas -/

/-- A ring yields at most its quota. -/
theorem ringRecommend_length_le (ringPeers : List PeerID) (count : Nat)
    (exclude : List PeerID) (perm : List Nat) :
    (ringRecommend ringPeers count exclude perm).length ≤ count := by
  unfold ringRecommend
  calc (((perm.take count).filterMap fun i => ringPeers.get? i).filter
          fun pid => !exclude.contains pid).length
      ≤ ((perm.take count).filterMap fun i => ringPeers.get? i).length :=
        List.length_filter_le _ _
    _ ≤ (perm.take count).length := List.length_filterMap_le _ _
    _ ≤ count := by rw [List.length_take]; exact min_le_left _ _

/-- The fallback sample yields at most its requested count. -/
theorem tableSample_length_le (peers : List PeerID) (count : Nat)
    (exclude : List PeerID) (perm : List Nat) :
    (tableSample peers count exclude perm).length ≤ count := by
  unfold tableSample
  calc (((perm.take count).filterMap fun i => peers.get? i).filter
          fun pid => !exclude.contains pid).length
      ≤ ((perm.take count).filterMap fun i => peers.get? i).length :=
        List.length_filter_le _ _
    _ ≤ (perm.take count).length := List.length_filterMap_le _ _
    _ ≤ count := by rw [List.length_take]; exact min_le_left _ _

/-- Incrementing one slot raises the sum by one. -/
theorem sum_set_getD_succ (l : List Nat) (j : Nat) (h : j < l.length) :
    (l.set j (l.getD j 0 + 1)).sum = l.sum + 1 := by
  induction l generalizing j with
  | nil => simp at h
  | cons x xs ih =>
    cases j with
    | zero => simp [List.getD]; omega
    | succ j =>
      simp only [List.set, List.sum_cons, List.getD_cons_succ]
      rw [ih j (by simpa using h)]
      omega

/-- The quota loop adds exactly one unit per iteration. -/
theorem nodesFromRingAux_sum (steps : Nat) :
    ∀ (j : Nat) (acc : List Nat), j < acc.length →
      (nodesFromRingAux steps j acc).sum = acc.sum + steps := by
  induction steps with
  | zero => intro j acc _; rfl
  | succ steps ih =>
    intro j acc hj
    unfold nodesFromRingAux
    rw [ih _ _ ?_, sum_set_getD_succ _ _ hj]
    · omega
    · rw [List.length_set]
      split
      · omega
      · omega

/-- The quotas of `Recommend` sum to the requested count. -/
theorem nodesFromRing_sum (count ringsCount : Nat) (h : 1 ≤ ringsCount) :
    (nodesFromRing count ringsCount).sum = count := by
  unfold nodesFromRing
  rw [nodesFromRingAux_sum count 0 _ (by simpa using h)]
  simp

/-- The per-ring collection yields at most the sum of the quotas. -/
theorem recommendFromRings_length_le (rs : List (List PeerID)) :
    ∀ (qs : List Nat) (exclude : List PeerID) (pms : List (List Nat)),
      (recommendFromRings rs qs exclude pms).length ≤ qs.sum := by
  induction rs with
  | nil =>
    intro qs exclude pms
    unfold recommendFromRings
    simp
  | cons r rs ih =>
    intro qs exclude pms
    cases qs with
    | nil => simp [recommendFromRings]
    | cons q qs =>
      cases pms with
      | nil => simp [recommendFromRings]
      | cons pm pms =>
        unfold recommendFromRings
        rw [List.length_append, List.sum_cons]
        exact Nat.add_le_add (ringRecommend_length_le r q exclude pm)
          (ih qs exclude pms)

/-! ## Claim theorems: C1 -/

/-- C1 counterexample: the table knows peers `a` and `b`, ring 0 holds `a`,
`exclude = [a]`, `count = 1`.  Under the permutation outcomes `[0]` (ring 0)
and `[0, 1]` (fallback sample over the peer list `[a, b]`) — both genuine
permutations — `Recommend` returns no peer at all, although the table minus
the exclusions still holds one peer (`b`): the excluded peer consumes the
single permutation slot both in the ring walk and in the fallback sample. -/
theorem c1_counterexample :
    tableRecommend ["a", "b"] [["a"]] 1 1 ["a"] [[0]] [0, 1] = [] ∧
    (["a", "b"].filter fun pid => !(["a"].contains pid)).length = 1 ∧
    [0].Perm (List.range 1) ∧ [0, 1].Perm (List.range 2) := by
  decide

/-- C1 (amended): `Recommend(count, exclude)` returns at most `count`
peers, for every table state and every outcome of the internal random
permutations; it can return fewer than `count` even when the table minus
the exclusions holds at least `count` peers, because excluded (or
already-recommended) peers consume permutation slots in both the per-ring
walk and the fallback sample. -/
theorem c1_recommend_at_most_count (peers : List PeerID)
    (rings : List (List PeerID)) (ringsCount count : Nat)
    (excludeList : List PeerID) (ringPerms : List (List Nat))
    (samplePerm : List Nat) (h : 1 ≤ ringsCount) :
    (tableRecommend peers rings ringsCount count excludeList ringPerms
        samplePerm).length ≤ count := by
  unfold tableRecommend
  have hq : (nodesFromRing count ringsCount).sum = count :=
    nodesFromRing_sum count ringsCount h
  have hr := recommendFromRings_length_le rings (nodesFromRing count ringsCount)
    excludeList ringPerms
  rw [hq] at hr
  dsimp only
  split
  · rw [List.length_append]
    have hs := tableSample_length_le peers
      (count - (recommendFromRings rings (nodesFromRing count ringsCount)
        excludeList ringPerms).length)
      (excludeList ++ recommendFromRings rings (nodesFromRing count ringsCount)
        excludeList ringPerms) samplePerm
    omega
  · exact hr

/-- C1 witness: the amended bound at a concrete state. -/
theorem c1_recommend_at_most_count_witness :
    1 ≤ 2 ∧
    (tableRecommend ["a", "b"] [["a"], ["b"]] 2 3 [] [[0], [0]] [0, 1]).length ≤ 3 :=
  ⟨by decide,
   c1_recommend_at_most_count ["a", "b"] [["a"], ["b"]] 2 3 [] [[0], [0]] [0, 1]
     (by decide)⟩

/-! ## Claim theorems: C2, C5 -/

/-- C2: with the scenario-A configuration (`ringCount = 4`,
`baseLatency = 10ms`, `growthFactor = 2`), a known peer whose latency
estimate is the estimator's default `0` (no or zero-valued samples) is
placed in *no* ring by a repopulation pass: the scan requires
`latency > latRanges[i]` strictly, and `0 > 0` already fails at index 0.
This contradicts the claimed invariant (exactly one ring per peer) and the
code's own comment, which gives ring `n` the half-open range
`[latRanges[n], latRanges[n+1])` containing 0 for `n = 0`. -/
theorem c2_default_estimate_in_no_ring :
    populateRings ["q"] (fun _ => 0) (mkLatRanges 4 10000000 2 1) 4
      = [[], [], [], []] ∧
    ringIndexFor (mkLatRanges 4 10000000 2 1) 0 = none := by
  decide

/-- C5: with `ringCount = 4`, `baseLatency = 10ms`, `growthFactor = 2` the
constructed boundaries are `[0, 10ms, 20ms, 40ms]` and a peer with
estimated latency 25ms is placed in ring index 2 — but a peer whose latency
is exactly the boundary value 10ms is placed in ring 0, not in the ring
that boundary opens (ring 1): the code assigns by the strict comparison
`latency > latRanges[i]`, i.e. by the bands `(latRanges[i], latRanges[i+1]]`,
contradicting the claim and the code's own half-open-interval comment. -/
theorem c5_boundary_goes_to_lower_ring :
    mkLatRanges 4 10000000 2 1 = [0, 10000000, 20000000, 40000000] ∧
    ringIndexFor (mkLatRanges 4 10000000 2 1) 25000000 = some 2 ∧
    ringIndexFor (mkLatRanges 4 10000000 2 1) 10000000 = some 0 ∧
    populateRings ["a"] (fun _ => 10000000) (mkLatRanges 4 10000000 2 1) 4
      = [["a"], [], [], []] := by
  decide

/-! ## Claim theorems: C3 -/

/-- C3: the background refresh task of a routing table, as written, executes
its refresh-and-repopulate body at most once under every schedule — in
particular exactly once when the timer fires and shutdown is never
signalled — rather than once per `SamplePeriod` repeatedly.  This refutes
"for every n, if shutdown is never signalled, the body executes at least n
times" at n = 2. -/
theorem c3_refresh_body_at_most_once :
    refreshTaskBodyCount (fun _ => SelectOutcome.timer) = 1 ∧
    ∀ outcomes : Nat → SelectOutcome, refreshTaskBodyCount outcomes ≤ 1 := by
  refine ⟨rfl, fun outcomes => ?_⟩
  unfold refreshTaskBodyCount
  cases outcomes 0 <;> simp

/-! ## Claim theorems: C4, C6 -/

/-- C4 counterexample: when the StreamStore accepts the inbound registration
(`addAccepts = true`) but the ACK write fails (`ackWriteOk = false`), the
handler removes the registration but neither closes nor hands off the
stream, so the terminal path closes/hands off the stream zero times — the
claim requires it to be closed. -/
theorem c4_counterexample :
    (pairHandler true false).storeRemoved = true ∧
    (pairHandler true false).closeCount = 0 ∧
    (pairHandler true false).processSpawned = false := by
  decide

/-- C4 (amended): the rejection path closes the stream exactly once and the
success path hands it off exactly once, but on the path where the ACK write
fails after a successful registration the handler removes the registration
and returns with the stream neither closed nor handed off. -/
theorem c4_close_or_handoff (addAccepts ackWriteOk : Bool) :
    (pairHandler addAccepts ackWriteOk).closeCount
        + (if (pairHandler addAccepts ackWriteOk).processSpawned then 1 else 0)
      = (if addAccepts && !ackWriteOk then 0 else 1) ∧
    (pairHandler addAccepts ackWriteOk).storeRemoved = (addAccepts && !ackWriteOk) := by
  cases addAccepts <;> cases ackWriteOk <;> decide

/-- C6 counterexample: a second `Shutdown()` on the same table instance
closes an already-closed channel, which panics (`none`). -/
theorem c6_counterexample :
    (tableShutdown false).bind tableShutdown = none := by
  decide

/-- C6 (amended): the first `Shutdown()` neither blocks nor panics (Go
`close` never blocks), but a second `Shutdown()` on the same instance
panics by closing an already-closed channel. -/
theorem c6_second_shutdown_panics :
    tableShutdown false = some true ∧
    (tableShutdown false).bind tableShutdown = none := by
  decide

/-! ## Claim theorems: C7, C8 -/

/-- C7: if the stream opens but the read of the single control byte times
out or fails, `pair` returns `(false, readError)`, closes the stream, does
not remove the peer from the routing table and does not clear its cached
addresses — whatever the stream store would have answered. -/
theorem c7_read_failure_keeps_peer (storeAccepts : Bool) :
    pair true none storeAccepts =
      ⟨false, some PairError.readError, true, false, false, false⟩ := by
  rfl

/-- C8: on a NAK control byte (whatever the store would say), or on an ACK
whose outbound registration the StreamStore rejects, `pair` closes the
stream, returns `(false, nil)` and spawns no artifact task; symmetrically,
when the responder's StreamStore rejects the inbound stream the handler
sends the NAK byte 0x15, closes the stream exactly once, and spawns no
artifact task (whatever the ACK write would have done). -/
theorem c8_negotiated_rejection :
    (∀ storeAccepts : Bool,
        pair true (some nakByte) storeAccepts =
          ⟨false, none, true, false, false, false⟩) ∧
    pair true (some ackByte) false = ⟨false, none, true, false, false, false⟩ ∧
    (∀ ackWriteOk : Bool,
        (pairHandler false ackWriteOk).rejectByteSent = some 0x15 ∧
        (pairHandler false ackWriteOk).closeCount = 1 ∧
        (pairHandler false ackWriteOk).processSpawned = false) := by
  refine ⟨fun s => rfl, rfl, fun w => ?_⟩
  cases w <;> exact ⟨rfl, rfl, rfl⟩

/-! ## Helper lemmas for C9 (`ring.Remove`) -/

/-- The remove loop splits over an index-list append. -/
theorem ringRemoveAux_append (pid : PeerID) (xs : List Nat) :
    ∀ (ys : List Nat) (st : List PeerID × Nat),
      ringRemoveAux pid (xs ++ ys) st =
        (ringRemoveAux pid xs st).bind (ringRemoveAux pid ys) := by
  induction xs with
  | nil =>
    intro ys st
    simp [ringRemoveAux]
  | cons i rest ih =>
    intro ys st
    obtain ⟨arr, len⟩ := st
    cases harr : arr.get? i with
    | none =>
      simp only [List.cons_append, ringRemoveAux, harr]
      exact ih ys (arr, len)
    | some peerI =>
      simp only [List.cons_append, ringRemoveAux, harr]
      by_cases hpi : peerI = pid
      · rw [if_pos hpi, if_pos hpi]
        by_cases hlen : len < i + 1
        · rw [if_pos hlen, if_pos hlen]
          rfl
        · rw [if_neg hlen, if_neg hlen]
          exact ih ys (ringRemoveShift arr i len, len - 1)
      · rw [if_neg hpi, if_neg hpi]
        exact ih ys (arr, len)

/-- Indices that never read the removed peer leave the state unchanged. -/
theorem ringRemoveAux_skip (pid : PeerID) (idxs : List Nat) :
    ∀ (arr : List PeerID) (len : Nat),
      (∀ i ∈ idxs, ∀ q, arr.get? i = some q → q ≠ pid) →
      ringRemoveAux pid idxs (arr, len) = some (arr, len) := by
  induction idxs with
  | nil => intro arr len _; rfl
  | cons i rest ih =>
    intro arr len h
    cases harr : arr.get? i with
    | none =>
      simp only [ringRemoveAux, harr]
      exact ih arr len fun i' hi' => h i' (List.mem_cons_of_mem i hi')
    | some peerI =>
      simp only [ringRemoveAux, harr]
      rw [if_neg (h i (List.mem_cons_self i rest) peerI harr)]
      exact ih arr len fun i' hi' => h i' (List.mem_cons_of_mem i hi')

/-- Split a list at the first occurrence of a member. -/
theorem exists_first_occurrence_split (p : PeerID) (l : List PeerID)
    (h : p ∈ l) : ∃ a b, l = a ++ p :: b ∧ p ∉ a := by
  induction l with
  | nil => simp at h
  | cons x xs ih =>
    by_cases hx : x = p
    · exact ⟨[], xs, by rw [hx]; rfl, by simp⟩
    · have hmem : p ∈ xs := by
        rcases List.mem_cons.mp h with h1 | h1
        · exact absurd h1.symm hx
        · exact h1
      rcases ih hmem with ⟨a, b, hl, hpa⟩
      refine ⟨x :: a, b, by rw [hl]; rfl, ?_⟩
      simp only [List.mem_cons, not_or]
      exact ⟨fun e => hx e.symm, hpa⟩

/-- Lists all of whose members differ from `pid` are fixed by the
`!= pid` filter. -/
theorem filter_bne_of_not_mem (pid : PeerID) (l : List PeerID)
    (h : pid ∉ l) : (l.filter fun q => q != pid) = l :=
  List.filter_eq_self.mpr fun a ha =>
    bne_iff_ne.mpr fun e => h (e ▸ ha)

/-- The `!= pid` filter is idempotent. -/
theorem filter_bne_idem (pid : PeerID) (l : List PeerID) :
    ((l.filter fun q => q != pid).filter fun q => q != pid)
      = l.filter fun q => q != pid :=
  List.filter_eq_self.mpr fun a ha => (List.mem_filter.mp ha).2

/-- `pid` never survives the `!= pid` filter. -/
theorem not_mem_filter_bne (pid : PeerID) (l : List PeerID) :
    pid ∉ l.filter fun q => q != pid := by
  intro h
  have := (List.mem_filter.mp h).2
  simp at this

/-- On a ring in which `p` occurs at most once — the only ring contents the
table ever builds, since rings are repopulated from the keys of a map —
`ring.Remove` terminates without panicking and removes the occurrence:
the resulting slice is the original list with `p` filtered out. -/
theorem ringRemove_eq_filter (p : PeerID) (l : List PeerID)
    (h : l.count p ≤ 1) :
    ringRemove p l = some (l.filter fun q => q != p) := by
  by_cases hp : p ∈ l
  · obtain ⟨a, b, rfl, hpa⟩ := exists_first_occurrence_split p l hp
    have hpb : p ∉ b := by
      rw [List.count_append, List.count_cons_self] at h
      exact List.count_eq_zero.mp (by omega)
    have hlen : (a ++ p :: b).length = a.length + 1 + b.length := by
      simp only [List.length_append, List.length_cons]
      omega
    have hrange : List.range (a ++ p :: b).length
        = (List.range a.length ++ [a.length])
          ++ (List.range b.length).map (a.length + 1 + ·) := by
      rw [hlen, List.range_add, List.range_succ]
    have hgetj : (a ++ p :: b).get? a.length = some p := by
      rw [List.get?_append_right (le_refl a.length)]
      simp
    have hshift : ringRemoveShift (a ++ p :: b) a.length (a ++ p :: b).length
        = a ++ b ++ (p :: b).drop b.length := by
      unfold ringRemoveShift
      have h2 : (a ++ p :: b).drop (a.length + 1) = b := by
        rw [← List.drop_drop, List.drop_left]
        rfl
      have h3 : (a ++ p :: b).length - a.length - 1 = b.length := by
        rw [hlen]; omega
      have h4 : (a ++ p :: b).length - 1 = a.length + b.length := by
        rw [hlen]; omega
      have h5 : (a ++ p :: b).drop ((a ++ p :: b).length - 1)
          = (p :: b).drop b.length := by
        rw [h4, ← List.drop_drop, List.drop_left]

      rw [List.take_left, h2, h3, h5, List.take_length]
    have phase1 : ringRemoveAux p (List.range a.length)
        (a ++ p :: b, (a ++ p :: b).length)
        = some (a ++ p :: b, (a ++ p :: b).length) := by
      apply ringRemoveAux_skip
      intro i hi q hq hqp
      rw [List.get?_append (List.mem_range.mp hi)] at hq
      exact hpa (hqp ▸ List.get?_mem hq)
    have phase2 : ringRemoveAux p [a.length] (a ++ p :: b, (a ++ p :: b).length)
        = some (a ++ b ++ (p :: b).drop b.length, (a ++ p :: b).length - 1) := by
      simp only [ringRemoveAux, hgetj]
      rw [if_pos (by trivial), if_neg (by rw [hlen]; omega), hshift]
    unfold ringRemove
    rw [hrange, ringRemoveAux_append, ringRemoveAux_append, phase1]
    simp only [Option.some_bind]
    rw [phase2]
    simp only [Option.some_bind]
    cases b with
    | nil =>
      simp only [List.range_zero, List.map_nil, ringRemoveAux, Option.map_some',
        List.append_nil, List.length_nil, List.drop_zero]
      have hn1 : (a ++ [p]).length - 1 = a.length := by
        simp
      rw [hn1, List.take_left, List.filter_append, filter_bne_of_not_mem p a hpa]
      simp
    | cons y bs =>
      have hmemtail : ∀ q ∈ (p :: y :: bs).drop (y :: bs).length, q ∈ y :: bs := by
        intro q hq
        rw [show (p :: y :: bs).drop (y :: bs).length
            = (y :: bs).drop bs.length from rfl] at hq
        exact List.drop_subset _ _ hq
      have hnp2 : p ∉ a ++ (y :: bs) ++ (p :: y :: bs).drop (y :: bs).length := by
        intro hmem
        rcases List.mem_append.mp hmem with h1 | h1
        · rcases List.mem_append.mp h1 with h2 | h2
          · exact hpa h2
          · exact hpb h2
        · exact hpb (hmemtail p h1)
      have phase3 : ringRemoveAux p ((List.range (y :: bs).length).map (a.length + 1 + ·))
          (a ++ (y :: bs) ++ (p :: y :: bs).drop (y :: bs).length,
            (a ++ p :: y :: bs).length - 1)
          = some (a ++ (y :: bs) ++ (p :: y :: bs).drop (y :: bs).length,
              (a ++ p :: y :: bs).length - 1) := by
        apply ringRemoveAux_skip
        intro i _ q hq hqp
        exact hnp2 (hqp ▸ List.get?_mem hq)
      rw [phase3]
      simp only [Option.map_some']
      have hn1 : (a ++ p :: y :: bs).length - 1 = (a ++ (y :: bs)).length := by
        simp only [List.length_append, List.length_cons]
        omega
      rw [hn1, List.take_left]
      rw [List.filter_append, filter_bne_of_not_mem p a hpa, List.filter_cons]
      simp only [bne_self_eq_false, Bool.false_eq_true, if_false]
      rw [filter_bne_of_not_mem p (y :: bs) hpb]
  · have hskip : ringRemoveAux p (List.range l.length) (l, l.length)
        = some (l, l.length) :=
      ringRemoveAux_skip p _ l l.length
        (fun i _ q hq hqp => hp (hqp ▸ List.get?_mem hq))
    unfold ringRemove
    rw [hskip]
    simp only [Option.map_some', List.take_length]
    rw [filter_bne_of_not_mem p l hp]

/-- Removing a peer that occurs at most once per ring succeeds ring-wise. -/
theorem removeFromRings_eq_filter (p : PeerID) (rs : List (List PeerID))
    (h : ∀ r ∈ rs, r.count p ≤ 1) :
    removeFromRings p rs = some (rs.map fun r => r.filter fun q => q != p) := by
  induction rs with
  | nil => rfl
  | cons r rs ih =>
    have h1 := ringRemove_eq_filter p r (h r (List.mem_cons_self r rs))
    have h2 := ih fun r' hr' => h r' (List.mem_cons_of_mem r hr')
    simp only [removeFromRings, h1, h2, List.map_cons]

/-- Mapping the `!= p` filter over the rings is idempotent. -/
theorem map_filter_bne_idem (p : PeerID) (rs : List (List PeerID)) :
    ((rs.map fun r => r.filter fun q => q != p).map fun r =>
        r.filter fun q => q != p)
      = rs.map fun r => r.filter fun q => q != p := by
  induction rs with
  | nil => rfl
  | cons r rs ih => simp only [List.map_cons, ih, filter_bne_idem]

/-! ## Claim theorems: C9 -/

/-- C9 counterexample: on a ring content with two adjacent occurrences of
`p` (`["p", "p", "x"]`), `ring.Remove(p)` does *not* delete all
occurrences: the range loop captures the original slice view, the in-place
shift moves `x` under the cursor, and the final slice is `["p", "x"]`,
still containing `p`.  A second `Remove` then changes the ring again
(`["x"]`), so double removal is also not the same as single removal. -/
theorem c9_counterexample :
    ringRemove "p" ["p", "p", "x"] = some ["p", "x"] ∧
    "p" ∈ ["p", "x"] ∧
    (ringRemove "p" ["p", "p", "x"]).bind (ringRemove "p") = some ["x"] := by
  decide

/-- C9 (amended): on every table state whose rings each contain `p` at most
once — the only states the table produces, since rings are rebuilt from the
keys of the peer map — `Remove(p)` deletes `p` from the peer set and every
ring (each ring becomes its `!= p` filtrate, and no panic occurs), and
calling `Remove(p)` twice has the same observable effect as calling it
once.  On rings with duplicate occurrences of `p` both properties fail
(see the counterexample). -/
theorem c9_remove_single_occurrence {M : Type} (p : PeerID)
    (st : TableState M) (h : ∀ r ∈ st.rings, r.count p ≤ 1) :
    tableRemove p st
      = some ⟨st.peers.filter fun q => q != p,
          st.rings.map fun r => r.filter fun q => q != p, st.metrics⟩ ∧
    (tableRemove p st).bind (tableRemove p) = tableRemove p st := by
  have h1 : tableRemove p st
      = some ⟨st.peers.filter fun q => q != p,
          st.rings.map fun r => r.filter fun q => q != p, st.metrics⟩ := by
    unfold tableRemove
    rw [removeFromRings_eq_filter p st.rings h]
  refine ⟨h1, ?_⟩
  rw [h1]
  simp only [Option.some_bind]
  have h2 : ∀ r ∈ (st.rings.map fun r => r.filter fun q => q != p),
      r.count p ≤ 1 := by
    intro r hr
    rcases List.mem_map.mp hr with ⟨r0, _, rfl⟩
    rw [List.count_eq_zero.mpr (not_mem_filter_bne p r0)]
    omega
  unfold tableRemove
  dsimp only
  rw [removeFromRings_eq_filter p _ h2, map_filter_bne_idem, filter_bne_idem]

/-- C9 witness: the amended statement at a concrete two-ring table. -/
theorem c9_remove_single_occurrence_witness :
    (∀ r ∈ ([["x", "p"], []] : List (List PeerID)), r.count "p" ≤ 1) ∧
    (tableRemove "p" (⟨["x", "p"], [["x", "p"], []], 0⟩ : TableState Nat)
        = some ⟨["x", "p"].filter fun q => q != "p",
            [["x", "p"], []].map fun r => r.filter fun q => q != "p", 0⟩ ∧
      (tableRemove "p"
            (⟨["x", "p"], [["x", "p"], []], 0⟩ : TableState Nat)).bind
          (tableRemove "p")
        = tableRemove "p" (⟨["x", "p"], [["x", "p"], []], 0⟩ : TableState Nat)) :=
  ⟨by decide,
   c9_remove_single_occurrence "p"
     (⟨["x", "p"], [["x", "p"], []], 0⟩ : TableState Nat) (by decide)⟩

/-! ## Claim theorems: C10 -/

/-- C10: `Remove(p)` leaves the metrics store untouched (only the peer set
and the rings change), for every metrics implementation; consequently, if
`p` is later re-added and the probe yields `d`, `Add` folds `d` into the
metrics state as it was *before* the removal (`record st.metrics p d`)
rather than into a fresh state, and re-inserts the peer. -/
theorem c10_remove_preserves_metrics {M : Type}
    (record : M → PeerID → Duration → M) (probe : PeerID → Option Duration)
    (pid : PeerID) (d : Duration) (st st2 : TableState M)
    (hprobe : probe pid = some d) (hrem : tableRemove pid st = some st2) :
    st2.metrics = st.metrics ∧
    (tableAdd record probe pid st2).metrics = record st.metrics pid d ∧
    (tableAdd record probe pid st2).peers = st2.peers ++ [pid] := by
  unfold tableRemove at hrem
  cases hrr : removeFromRings pid st.rings with
  | none => rw [hrr] at hrem; cases hrem
  | some rings2 =>
    rw [hrr] at hrem
    have hst2 : st2
        = ⟨st.peers.filter fun q => q != pid, rings2, st.metrics⟩ :=
      (Option.some.inj hrem).symm
    subst hst2
    have hnotmem : pid ∉ st.peers.filter fun q => q != pid :=
      not_mem_filter_bne pid st.peers
    refine ⟨rfl, ?_, ?_⟩
    · simp only [tableAdd, hprobe]
      rw [if_neg hnotmem]
    · simp only [tableAdd, hprobe]
      rw [if_neg hnotmem]

/-- C10 witness: the frame property at a concrete table whose metrics store
is an association list and whose record operation prepends the sample. -/
theorem c10_remove_preserves_metrics_witness :
    ((fun _ : PeerID => some (5 : Duration)) "p" = some 5) ∧
    (tableRemove "p"
        (⟨["p"], [["p"]], [("p", (7 : Duration))]⟩
          : TableState (List (PeerID × Duration)))
      = some ⟨[], [[]], [("p", 7)]⟩) ∧
    ((⟨[], [[]], [("p", (7 : Duration))]⟩
          : TableState (List (PeerID × Duration))).metrics
        = (⟨["p"], [["p"]], [("p", 7)]⟩
            : TableState (List (PeerID × Duration))).metrics ∧
      (tableAdd (fun m q d => (q, d) :: m) (fun _ => some 5) "p"
          (⟨[], [[]], [("p", 7)]⟩
            : TableState (List (PeerID × Duration)))).metrics
        = (fun m (q : PeerID) (d : Duration) => (q, d) :: m)
            (⟨["p"], [["p"]], [("p", 7)]⟩
              : TableState (List (PeerID × Duration))).metrics "p" 5 ∧
      (tableAdd (fun m q d => (q, d) :: m) (fun _ => some 5) "p"
          (⟨[], [[]], [("p", 7)]⟩
            : TableState (List (PeerID × Duration)))).peers
        = (⟨[], [[]], [("p", (7 : Duration))]⟩
            : TableState (List (PeerID × Duration))).peers ++ ["p"]) :=
  ⟨rfl, by decide,
   c10_remove_preserves_metrics (fun m q d => (q, d) :: m) (fun _ => some 5)
     "p" 5 ⟨["p"], [["p"]], [("p", 7)]⟩ ⟨[], [[]], [("p", 7)]⟩ rfl (by decide)⟩
